import Mathlib

/-
Verification of the mc-backup tool (recurring variant, `src/unnamed/part_001`,
and its single-shot siblings `src/index.js`, `src/unnamed/part_000`).

The embedding models:
  * directory trees and the recursive size scan `getFolderSize`;
  * the copy / delete helpers `copyFolder` and `delFolder`;
  * the archive filename generator `generateZipFilename`;
  * the event handlers installed by `zipFolder` (progress throttling,
    close-time cleanup) as a fold over a trace of archiver events;
  * the `setInterval`-based scheduler of `runBackupOperation`.
-/

namespace MCBackup

/-- A directory tree as the backup tool observes it through `readdir`/`stat`:
a regular file with a byte size, a directory listing named entries in
`readdir` order, or an entry whose `stat` (or `readdir`) call fails
(permission denied, vanished mid-scan, ...). -/
inductive FSTree where
  | file (size : Nat)
  | dir (entries : List (String × FSTree))
  | denied
deriving Repr

mutual

/-- Total byte length of all regular files reachable in a tree (the
specification-side sum; inaccessible entries contribute nothing). -/
def sumFilesTree : FSTree → Nat
  | .file n => n
  | .denied => 0
  | .dir es => sumFilesList es

/-- Sum of `sumFilesTree` over a directory listing. -/
def sumFilesList : List (String × FSTree) → Nat
  | [] => 0
  | (_, t) :: rest => sumFilesTree t + sumFilesList rest

end

mutual

/-- Every reachable entry of the tree is accessible (no `stat`/`readdir`
failure anywhere). -/
def noDeniedTree : FSTree → Bool
  | .file _ => true
  | .denied => false
  | .dir es => noDeniedList es

/-- `noDeniedTree` over a directory listing. -/
def noDeniedList : List (String × FSTree) → Bool
  | [] => true
  | (_, t) :: rest => noDeniedTree t && noDeniedList rest

end

mutual

/-- One entry of the scan loop in `getFolderSize.getSize`: `stat` the entry;
a directory is recursed into, a regular file contributes its size, and a
failing `stat` rejects the whole promise (there is no try/catch in the
source). -/
def getSizeTree : FSTree → Except String Nat
  | .file n => .ok n
  | .denied => .error "EACCES"
  | .dir es => getSizeList es

/-- The `for (const file of files)` loop body of `getFolderSize.getSize`:
entries are processed in order and the first rejection aborts the loop. -/
def getSizeList : List (String × FSTree) → Except String Nat
  | [] => .ok 0
  | (_, t) :: rest => do
      let a ← getSizeTree t
      let b ← getSizeList rest
      .ok (a + b)

end

/-- `getFolderSize(folderPath)`: `readdir` the root directory and run the
scan loop over its entries. A root that is not a readable directory rejects
immediately. -/
def getFolderSize : FSTree → Except String Nat
  | .dir es => getSizeList es
  | .file _ => .error "ENOTDIR"
  | .denied => .error "EACCES"

mutual

theorem getSizeTree_eq : (t : FSTree) →
    getSizeTree t =
      if noDeniedTree t then Except.ok (sumFilesTree t) else Except.error "EACCES"
  | .file n => rfl
  | .denied => rfl
  | .dir es => by
      simp only [getSizeTree, noDeniedTree, sumFilesTree]
      exact getSizeList_eq es

theorem getSizeList_eq : (es : List (String × FSTree)) →
    getSizeList es =
      if noDeniedList es then Except.ok (sumFilesList es) else Except.error "EACCES"
  | [] => rfl
  | (s, t) :: rest => by
      simp only [getSizeList, noDeniedList, sumFilesList]
      rw [getSizeTree_eq t, getSizeList_eq rest]
      cases h1 : noDeniedTree t <;> cases h2 : noDeniedList rest <;> rfl

end

theorem getFolderSize_eq (es : List (String × FSTree)) :
    getFolderSize (.dir es) =
      if noDeniedList es then Except.ok (sumFilesList es) else Except.error "EACCES" := by
  simpa [getFolderSize] using getSizeList_eq es

/-- The filesystem state `copyFolder` touches: what is stored at the source
path (`folderName`) and at the temporary destination path (`tmpFolderPath`);
`none` means the path does not exist on disk. -/
structure CopyFS where
  source : Option FSTree
  dest : Option FSTree
deriving Repr

/-- Result of a copy attempt: the filesystem afterwards, and whether an
exception propagated out of `copyFolder`. -/
structure CopyOutcome where
  fs : CopyFS
  errored : Bool
deriving Repr

/-- `copyFolder(folderPath, tmpFolderPath)` from the source: it first runs
`fs.mkdirSync(folderPath, { recursive: true })` — note: on the SOURCE path,
so a missing source is silently created as an empty directory — and then
`fs.cpSync(folderPath, tmpFolderPath, { recursive: true, preserveTimestamps:
true })`. There is no try/catch: if `cpSync` throws mid-copy (modelled by
`cpFailure = some leftoverTree`, the partially written destination tree),
the exception propagates with the destination left as it is; nothing removes
a failed copy. The model assumes the destination path is absent beforehand
(merge semantics of `cpSync` onto an existing tree are not exercised by any
claim). -/
def copyFolder (fs : CopyFS) (cpFailure : Option FSTree) : CopyOutcome :=
  let src := fs.source.getD (FSTree.dir [])
  match cpFailure with
  | none => { fs := { source := some src, dest := some src }, errored := false }
  | some leftoverTree =>
      { fs := { source := some src, dest := some leftoverTree }, errored := true }

/-- `fs.rmSync(path, { recursive: true, force: true })` restricted to the
target path: removes whatever is there; without `force` a missing target is
an `ENOENT` error, with `force` it is silently ignored. Returns the state of
the path afterwards and whether an exception was thrown. -/
def rmSync (force : Bool) (st : Option FSTree) : Option FSTree × Bool :=
  match st with
  | none => (none, !force)
  | some _ => (none, false)

/-- `delFolder(tmpFolderPath)`: `rmSync` with `recursive: true, force: true`. -/
def delFolder (st : Option FSTree) : Option FSTree × Bool :=
  rmSync true st

/-- Local wall-clock time as the JS `Date` accessors expose it; `monthIndex`
is 0-based as returned by `getMonth()`. -/
structure JsDate where
  year : Nat
  monthIndex : Nat
  day : Nat
  hour : Nat
  minute : Nat
  second : Nat
deriving Repr, DecidableEq

/-- `String(n).padStart(2, "0")` for a natural number: a single decimal
digit gets one leading zero, anything longer is unchanged. -/
def pad2 (n : Nat) : String :=
  if n < 10 then "0" ++ toString n else toString n

/-- Split a character list into the path components delimited by `/`. -/
def splitOnSlash : List Char → List (List Char)
  | [] => [[]]
  | c :: rest =>
      let r := splitOnSlash rest
      if c = '/' then [] :: r
      else
        match r with
        | [] => [[c]]
        | comp :: comps => (c :: comp) :: comps

/-- The last element of a list, or the default when the list is empty. -/
def lastOr {α : Type} : List α → α → α
  | [], d => d
  | x :: xs, _ => lastOr xs x

/-- `path.basename(p)`: the final non-empty path component (trailing and
repeated separators ignored); the empty string when there is none. -/
def basename (p : String) : String :=
  ⟨lastOr ((splitOnSlash p.data).filter (fun cs => cs ≠ [])) []⟩

/-- The `timestamp` template string of `generateZipFilename`:
`${year}-${month}-${day}_${hours}-${minutes}-${seconds}` with the
two-digit-padded fields and the 1-based month. -/
def timestampOf (now : JsDate) : String :=
  toString now.year ++ "-" ++ pad2 (now.monthIndex + 1) ++ "-" ++ pad2 now.day ++
    "_" ++ pad2 now.hour ++ "-" ++ pad2 now.minute ++ "-" ++ pad2 now.second

/-- `generateZipFilename(folderPath)`, with the `new Date()` instant made an
explicit argument: `${timestamp}_${folderName}.zip` where `folderName =
path.basename(folderPath)`. -/
def generateZipFilename (now : JsDate) (folderPath : String) : String :=
  timestampOf now ++ "_" ++ basename folderPath ++ ".zip"

/-- Modelled from the spec: the archive filename convention
`YYYY-MM-DD_HH-MM-SS_<basename-of-source>.zip`, each time-of-day field
zero-padded to two digits, month 1-based. Written from §6 of the spec to be
compared with `generateZipFilename`. -/
def specArchiveFilename (now : JsDate) (sourcePath : String) : String :=
  toString now.year ++ "-" ++ pad2 (now.monthIndex + 1) ++ "-" ++ pad2 now.day ++
    "_" ++ pad2 now.hour ++ "-" ++ pad2 now.minute ++ "-" ++ pad2 now.second ++
    "_" ++ basename sourcePath ++ ".zip"

/-- `path.join(dir, name)` for a directory and a bare filename, as used in
`runBackupOperation` to form the output zip path. -/
def pathJoin (dir name : String) : String :=
  dir ++ "/" ++ name

/-- The `zipPath` computed once per cycle in `runBackupOperation`:
`path.join(zipFolderName, generateZipFilename(folderName))`. -/
def zipOutputPath (now : JsDate) (zipFolderName folderName : String) : String :=
  pathJoin zipFolderName (generateZipFilename now folderName)

/-- Events delivered to the handlers `zipFolder` installs: a `progress`
event from archiver carrying `data.fs.processedBytes`, an `error` event
from archiver, and the `close` event of the output write stream. -/
inductive ArchiveEvent where
  | progress (processedBytes : Nat)
  | errorEvt
  | closeEvt
deriving Repr, DecidableEq

/-- The mutable state of one `zipFolder` invocation: `totalBytes` computed
up front, `bar` (represented by whether it was created: `totalBytes > 0`),
`lastPrintedProgress`, the list of fractions at which the bar was updated by
the progress handler, how many times the progress handler evaluated the
division `processedBytes / totalBytes`, whether the close handler forced
the bar to 100%, and whether `delFolder(tmpFolder)` has run. -/
structure ZipState where
  totalBytes : Nat
  hasBar : Bool
  lastPrintedProgress : ℚ
  emitted : List ℚ
  divisions : Nat
  barForcedFull : Bool
  tmpDeleted : Bool
deriving Repr, DecidableEq

/-- State at the top of `zipFolder` after the size scan: `bar = null` unless
`totalBytes > 0`, `lastPrintedProgress = 0`, nothing emitted, temp folder
still present. -/
def initZipState (totalBytes : Nat) : ZipState :=
  { totalBytes := totalBytes
    hasBar := decide (totalBytes > 0)
    lastPrintedProgress := 0
    emitted := []
    divisions := 0
    barForcedFull := false
    tmpDeleted := false }

/-- The three handlers of `zipFolder` as one step function.
`progress`: `if (bar) { const progress = processedBytes / totalBytes; if
(progress - lastPrintedProgress >= 0.01) { bar.update(progress);
lastPrintedProgress = progress; } }`.
`error`: `handleException(err)` — logging only, no state change, no cleanup.
`close`: `if (bar) bar.update(1); ... delFolder(tmpFolder);`. -/
def handleEvent (st : ZipState) : ArchiveEvent → ZipState
  | .progress processedBytes =>
      if st.hasBar then
        let progress : ℚ := (processedBytes : ℚ) / (st.totalBytes : ℚ)
        let st := { st with divisions := st.divisions + 1 }
        if progress - st.lastPrintedProgress ≥ 1 / 100 then
          { st with
              lastPrintedProgress := progress
              emitted := st.emitted ++ [progress] }
        else st
      else st
  | .errorEvt => st
  | .closeEvt =>
      { st with
          barForcedFull := st.barForcedFull || st.hasBar
          tmpDeleted := true }

/-- One `zipFolder` invocation viewed as the fold of its handlers over the
trace of events the archiver and the output stream deliver. -/
def runZip (totalBytes : Nat) (trace : List ArchiveEvent) : ZipState :=
  trace.foldl handleEvent (initZipState totalBytes)

/-- The recurring scheduler of the source: `runBackupOperation()` at time 0,
then `setInterval(runBackupOperation, 60 * 60 * 1000)` — cycle `k` starts at
`k * intervalMs`, whether or not an earlier cycle is still running. -/
def intervalMs : Nat := 60 * 60 * 1000

/-- Start time of the `k`-th backup cycle under the source's scheduling. -/
def startTime (k : Nat) : Nat := k * intervalMs

/-- Cycle `k` is in flight at time `t`, given the (arbitrary) duration map
`d`: it has started and has not yet finished. -/
def activeAt (d : Nat → Nat) (k t : Nat) : Prop :=
  startTime k ≤ t ∧ t < startTime k + d k

instance (d : Nat → Nat) (k t : Nat) : Decidable (activeAt d k t) :=
  inferInstanceAs (Decidable (_ ∧ _))

theorem handleEvent_tmpDeleted_iff (st : ZipState) (e : ArchiveEvent) :
    (handleEvent st e).tmpDeleted = true ↔
      (st.tmpDeleted = true ∨ e = ArchiveEvent.closeEvt) := by
  cases e with
  | progress n =>
      simp only [handleEvent]
      by_cases hb : st.hasBar = true
      · simp only [hb, if_true]
        split <;> simp
      · simp [hb]
  | errorEvt => simp [handleEvent]
  | closeEvt => simp [handleEvent]

theorem foldl_tmpDeleted_iff : ∀ (trace : List ArchiveEvent) (st : ZipState),
    ((trace.foldl handleEvent st).tmpDeleted = true ↔
      (st.tmpDeleted = true ∨ ArchiveEvent.closeEvt ∈ trace))
  | [], st => by simp
  | e :: rest, st => by
      rw [List.foldl_cons, foldl_tmpDeleted_iff rest (handleEvent st e),
        handleEvent_tmpDeleted_iff]
      constructor
      · rintro ((h | h) | h)
        · exact Or.inl h
        · exact Or.inr (h ▸ List.mem_cons_self e rest)
        · exact Or.inr (List.mem_cons_of_mem e h)
      · rintro (h | h)
        · exact Or.inl (Or.inl h)
        · rcases List.mem_cons.mp h with h | h
          · exact Or.inl (Or.inr h.symm)
          · exact Or.inr h

theorem lastOr_concat {α : Type} : ∀ (l : List α) (b d : α), lastOr (l ++ [b]) d = b
  | [], _, _ => rfl
  | x :: xs, b, d => by
      show lastOr (xs ++ [b]) x = b
      exact lastOr_concat xs b x

theorem chain_snoc {α : Type} {r : α → α → Prop} :
    ∀ (l : List α) (a b : α), List.Chain r a l → r (lastOr l a) b →
      List.Chain r a (l ++ [b])
  | [], a, b, _, hr => List.Chain.cons hr List.Chain.nil
  | x :: xs, a, b, hc, hr => by
      rcases List.chain_cons.mp hc with ⟨hax, hxs⟩
      exact List.chain_cons.mpr ⟨hax, chain_snoc xs x b hxs hr⟩

theorem handleEvent_progress_inv (st : ZipState) (e : ArchiveEvent)
    (h1 : List.Chain (fun a b => a + 1 / 100 ≤ b) 0 st.emitted)
    (h2 : st.lastPrintedProgress = lastOr st.emitted 0) :
    List.Chain (fun a b => a + 1 / 100 ≤ b) 0 (handleEvent st e).emitted ∧
      (handleEvent st e).lastPrintedProgress = lastOr (handleEvent st e).emitted 0 := by
  cases e with
  | errorEvt => exact ⟨h1, h2⟩
  | closeEvt => exact ⟨h1, h2⟩
  | progress n =>
      simp only [handleEvent]
      by_cases hb : st.hasBar = true
      · simp only [hb, if_true]
        by_cases hg : (n : ℚ) / (st.totalBytes : ℚ) - st.lastPrintedProgress ≥ 1 / 100

        · simp only [hg, if_true]
          refine ⟨chain_snoc st.emitted 0 _ h1 ?_, by simp [lastOr_concat]⟩
          rw [← h2]
          linarith
        · simp only [hg, if_false]
          exact ⟨h1, h2⟩
      · simp only [hb]
        exact ⟨h1, h2⟩

theorem foldl_progress_inv : ∀ (trace : List ArchiveEvent) (st : ZipState),
    List.Chain (fun a b => a + 1 / 100 ≤ b) 0 st.emitted →
    st.lastPrintedProgress = lastOr st.emitted 0 →
    (List.Chain (fun a b => a + 1 / 100 ≤ b) 0 (trace.foldl handleEvent st).emitted ∧
      (trace.foldl handleEvent st).lastPrintedProgress =
        lastOr (trace.foldl handleEvent st).emitted 0)
  | [], st, h1, h2 => ⟨h1, h2⟩
  | e :: rest, st, h1, h2 => by
      rw [List.foldl_cons]
      rcases handleEvent_progress_inv st e h1 h2 with ⟨h3, h4⟩
      exact foldl_progress_inv rest (handleEvent st e) h3 h4

theorem handleEvent_lastPrinted_mono (st : ZipState) (e : ArchiveEvent) :
    st.lastPrintedProgress ≤ (handleEvent st e).lastPrintedProgress := by
  cases e with
  | errorEvt => exact le_refl _
  | closeEvt => exact le_refl _
  | progress n =>
      simp only [handleEvent]
      by_cases hb : st.hasBar = true
      · simp only [hb, if_true]
        by_cases hg : (n : ℚ) / (st.totalBytes : ℚ) - st.lastPrintedProgress ≥ 1 / 100
        · simp only [hg, if_true]
          linarith
        · simp only [hg, if_false]
          exact le_refl _
      · simp only [hb]
        exact le_refl _

theorem handleEvent_noBar (st : ZipState) (e : ArchiveEvent)
    (h : st.hasBar = false) :
    (handleEvent st e).hasBar = false ∧
      (handleEvent st e).divisions = st.divisions ∧
      (handleEvent st e).emitted = st.emitted ∧
      (handleEvent st e).barForcedFull = st.barForcedFull := by
  cases e with
  | progress n => simp [handleEvent, h]
  | errorEvt => exact ⟨h, rfl, rfl, rfl⟩
  | closeEvt => simp [handleEvent, h]

theorem foldl_noBar : ∀ (trace : List ArchiveEvent) (st : ZipState),
    st.hasBar = false →
    ((trace.foldl handleEvent st).hasBar = false ∧
      (trace.foldl handleEvent st).divisions = st.divisions ∧
      (trace.foldl handleEvent st).emitted = st.emitted ∧
      (trace.foldl handleEvent st).barForcedFull = st.barForcedFull)
  | [], st, h => ⟨h, rfl, rfl, rfl⟩
  | e :: rest, st, h => by
      rw [List.foldl_cons]
      rcases handleEvent_noBar st e h with ⟨h1, h2, h3, h4⟩
      rcases foldl_noBar rest (handleEvent st e) h1 with ⟨g1, g2, g3, g4⟩
      exact ⟨g1, h2 ▸ g2, h3 ▸ g3, h4 ▸ g4⟩

theorem string_append_cancel (A s t suf : String)
    (h : A ++ s ++ suf = A ++ t ++ suf) : s = t := by
  have hd := congrArg String.data h
  simp only [String.data_append, List.append_assoc] at hd
  exact String.ext (List.append_cancel_right (List.append_cancel_left hd))

/-- C1 (counterexample): a cycle whose archive build fails — the archiver
emits its `error` event and the output stream never closes — ends with the
temporary workspace still on disk, because `delFolder(tmpFolder)` lives only
in the `close` handler. This refutes the claim that the temporary workspace
is deleted whether the build succeeds or fails. -/
theorem C1_counterexample :
    ArchiveEvent.errorEvt ∈ [ArchiveEvent.errorEvt] ∧
    (runZip 5 [ArchiveEvent.errorEvt]).tmpDeleted = false :=
  ⟨List.mem_singleton_self _, rfl⟩

/-- C1 (amended): the temporary workspace is deleted by the end of a cycle
exactly when the output stream's `close` event fired during the cycle; a
failed build that never closes the stream leaves the workspace in place. -/
theorem C1_cleanup_iff_close (totalBytes : Nat) (trace : List ArchiveEvent) :
    (runZip totalBytes trace).tmpDeleted = true ↔
      ArchiveEvent.closeEvt ∈ trace := by
  rw [runZip, foldl_tmpDeleted_iff]
  simp [initZipState]

/-- C2 (counterexample): with the source's fixed-interval `setInterval`
scheduling, a cycle lasting one millisecond longer than the hour interval is
still in flight at time `intervalMs`, the instant cycle 1 starts — two
distinct cycles are active concurrently, refuting the claim that the next
invocation begins strictly after the previous cycle completes. -/
theorem C2_counterexample :
    (0 : Nat) ≠ 1 ∧
    activeAt (fun _ => intervalMs + 1) 0 intervalMs ∧
    activeAt (fun _ => intervalMs + 1) 1 intervalMs := by
  refine ⟨by decide, ⟨?_, ?_⟩, ⟨?_, ?_⟩⟩ <;> decide

/-- C2 (amended): cycle `k` starts at `k * intervalMs` regardless of whether
earlier cycles have finished; no two distinct cycles are ever active at the
same time only under the extra assumption that every cycle's duration is at
most the interval. -/
theorem C2_no_overlap_of_bounded (d : Nat → Nat) (hd : ∀ k, d k ≤ intervalMs) :
    ∀ j k t, j ≠ k → ¬ (activeAt d j t ∧ activeAt d k t) := by
  have key : ∀ j k t, j < k → activeAt d j t → activeAt d k t → False := by
    intro j k t hjk haj hak
    have hdj := hd j
    rcases haj with ⟨hj1, hj2⟩
    rcases hak with ⟨hk1, hk2⟩
    simp only [startTime, intervalMs] at hj1 hj2 hk1 hk2 hdj
    omega
  rintro j k t hjk ⟨haj, hak⟩
  rcases Nat.lt_or_ge j k with h | h
  · exact key j k t h haj hak
  · exact key k j t (lt_of_le_of_ne h (Ne.symm hjk)) hak haj

/-- C2 (witness for the amended theorem): with all durations equal to one
millisecond, cycles 0 and 1 are not both active at time 1800000. -/
theorem C2_no_overlap_of_bounded_witness :
    ¬ (activeAt (fun _ => 1) 0 1800000 ∧ activeAt (fun _ => 1) 1 1800000) :=
  C2_no_overlap_of_bounded (fun _ => 1) (fun _ => (by decide : 1 ≤ intervalMs)) 0 1
    1800000 (by decide)

/-- C3: on a directory tree all of whose entries are accessible,
`getFolderSize` returns exactly the sum of the byte lengths of all regular
files reachable under the root, recursing into subdirectories. -/
theorem C3_computeTreeSize_correct (es : List (String × FSTree))
    (h : noDeniedList es = true) :
    getFolderSize (FSTree.dir es) = Except.ok (sumFilesList es) := by
  simp [getFolderSize_eq es, h]

/-- C3 (witness): a concrete two-level tree with files of 3 and 4 bytes and
an empty subdirectory scans to exactly 7 bytes. -/
theorem C3_computeTreeSize_correct_witness :
    noDeniedList
        [("a", FSTree.file 3),
         ("sub", FSTree.dir [("b", FSTree.file 4), ("empty", FSTree.dir [])])] = true ∧
    getFolderSize
        (FSTree.dir
          [("a", FSTree.file 3),
           ("sub", FSTree.dir [("b", FSTree.file 4), ("empty", FSTree.dir [])])]) =
      Except.ok 7 :=
  ⟨rfl, C3_computeTreeSize_correct _ rfl⟩

/-- C4 (counterexample): running `copyFolder` when the source path does not
exist does NOT fail: the `mkdirSync(folderPath, { recursive: true })` call —
made on the source path — silently creates it as an empty directory, and the
copy then succeeds, producing an empty destination. -/
theorem C4_counterexample :
    (copyFolder { source := none, dest := none } none).errored = false ∧
    (copyFolder { source := none, dest := none } none).fs.source =
      some (FSTree.dir []) ∧
    (copyFolder { source := none, dest := none } none).fs.dest =
      some (FSTree.dir []) :=
  ⟨rfl, rfl, rfl⟩

/-- C4 (amended): a missing source is silently created as an empty directory
and copied without error; an existing source is copied verbatim; and when
`cpSync` fails mid-copy, the error propagates with the partially-written
destination tree left in place — nothing removes it. -/
theorem C4_copyFolder_no_cleanup (d : Option FSTree) (src leftoverTree : FSTree) :
    (copyFolder { source := none, dest := d } none).errored = false ∧
    (copyFolder { source := none, dest := d } none).fs.source =
      some (FSTree.dir []) ∧
    (copyFolder { source := none, dest := d } none).fs.dest =
      some (FSTree.dir []) ∧
    (copyFolder { source := some src, dest := d } none) =
      { fs := { source := some src, dest := some src }, errored := false } ∧
    (copyFolder { source := none, dest := d } (some leftoverTree)).errored = true ∧
    (copyFolder { source := none, dest := d } (some leftoverTree)).fs.dest =
      some leftoverTree ∧
    (copyFolder { source := some src, dest := d } (some leftoverTree)).errored = true ∧
    (copyFolder { source := some src, dest := d } (some leftoverTree)).fs.dest =
      some leftoverTree :=
  ⟨rfl, rfl, rfl, rfl, rfl, rfl, rfl, rfl⟩

/-- C5 (counterexample): a root directory that is itself perfectly readable
but contains one 1-byte file and one entry whose `stat` fails makes the whole
scan reject with that entry's error instead of skipping it and returning the
1-byte total — there is no per-entry error handling in `getFolderSize`. -/
theorem C5_counterexample :
    getFolderSize (FSTree.dir [("a", FSTree.file 1), ("b", FSTree.denied)]) =
      Except.error "EACCES" ∧
    getFolderSize (FSTree.dir [("a", FSTree.file 1), ("b", FSTree.denied)]) ≠
      Except.ok (sumFilesList [("a", FSTree.file 1), ("b", FSTree.denied)]) :=
  ⟨rfl, fun h => nomatch h⟩

/-- C5 (amended): the size scan succeeds with the full sum exactly when every
reachable entry is accessible; a failure to stat or read any single entry
anywhere in the tree aborts the whole scan with an error. -/
theorem C5_scan_aborts_on_entry_failure (es : List (String × FSTree)) :
    getFolderSize (FSTree.dir es) =
      if noDeniedList es then Except.ok (sumFilesList es)
      else Except.error "EACCES" :=
  getFolderSize_eq es

/-- C6: over any trace of archiver events, the fractions at which the
progress handler updates the bar form a chain in which each reported
fraction exceeds the previously reported one by at least 1/100 (starting
from 0), the stored `lastPrintedProgress` is always the last reported
fraction, and no handler step ever decreases `lastPrintedProgress`. -/
theorem C6_progress_throttle :
    (∀ (totalBytes : Nat) (trace : List ArchiveEvent),
        List.Chain (fun a b => a + 1 / 100 ≤ b) 0 (runZip totalBytes trace).emitted ∧
          (runZip totalBytes trace).lastPrintedProgress =
            lastOr (runZip totalBytes trace).emitted 0) ∧
    (∀ (st : ZipState) (e : ArchiveEvent),
        st.lastPrintedProgress ≤ (handleEvent st e).lastPrintedProgress) := by
  constructor
  · intro totalBytes trace
    exact foldl_progress_inv trace (initZipState totalBytes) List.Chain.nil rfl
  · exact handleEvent_lastPrinted_mono

/-- C7: when the scanned total is 0 bytes, no progress bar is created, the
progress handler never evaluates the division `processedBytes / totalBytes`,
no progress update is ever emitted, and the cycle still completes: the
`close` event runs the cleanup as usual. -/
theorem C7_empty_total_no_progress (trace : List ArchiveEvent) :
    (initZipState 0).hasBar = false ∧
    (runZip 0 trace).hasBar = false ∧
    (runZip 0 trace).divisions = 0 ∧
    (runZip 0 trace).emitted = [] ∧
    (runZip 0 trace).barForcedFull = false ∧
    (runZip 0 (trace ++ [ArchiveEvent.closeEvt])).tmpDeleted = true := by
  have h0 : (initZipState 0).hasBar = false := rfl
  rcases foldl_noBar trace (initZipState 0) h0 with ⟨g1, g2, g3, g4⟩
  refine ⟨h0, g1, g2.trans rfl, g3.trans rfl, g4.trans rfl, ?_⟩
  rw [runZip, List.foldl_append]
  rfl

/-- C8: the generated archive filename is exactly the spec's
`YYYY-MM-DD_HH-MM-SS_<basename-of-source>.zip` shape, every two-digit field
is zero-padded to length 2, and within the same wall-clock second two
distinct source basenames always yield distinct filenames. -/
theorem C8_filename_format (now : JsDate) (p q : String) :
    generateZipFilename now p = specArchiveFilename now p ∧
    (∀ n, n < 100 → (pad2 n).length = 2) ∧
    (basename p ≠ basename q →
      generateZipFilename now p ≠ generateZipFilename now q) := by
  refine ⟨rfl, by decide, ?_⟩
  intro hne heq
  exact hne (string_append_cancel (timestampOf now ++ "_") _ _ ".zip" heq)

/-- C8 (witness): at a concrete instant, the two basenames `world` and
`plugins` yield distinct archive filenames. -/
theorem C8_filename_format_witness :
    basename "srv/world" ≠ basename "srv/plugins" ∧
    generateZipFilename ⟨2024, 0, 1, 2, 3, 4⟩ "srv/world" ≠
      generateZipFilename ⟨2024, 0, 1, 2, 3, 4⟩ "srv/plugins" :=
  ⟨by decide,
    (C8_filename_format ⟨2024, 0, 1, 2, 3, 4⟩ "srv/world" "srv/plugins").2.2
      (by decide)⟩

/-- C9: `delFolder` (an `rmSync` with `recursive: true, force: true`) always
leaves the target absent and never throws — in particular on an already
partially or fully absent target — and running it twice equals running it
once. -/
theorem C9_delFolder_idempotent (st : Option FSTree) :
    delFolder st = (none, false) ∧
    delFolder (delFolder st).1 = delFolder st := by
  cases st <;> exact ⟨rfl, rfl⟩

/-- C10: the generated filename, and hence the joined output path in the
destination folder, depends only on the basename of the source path and the
instant: two source paths with equal basenames collide at the same second. -/
theorem C10_basename_only (now : JsDate) (dest p q : String)
    (h : basename p = basename q) :
    generateZipFilename now p = generateZipFilename now q ∧
    zipOutputPath now dest p = zipOutputPath now dest q := by
  have hg : generateZipFilename now p = generateZipFilename now q := by
    unfold generateZipFilename
    rw [h]
  exact ⟨hg, by unfold zipOutputPath pathJoin; rw [hg]⟩

/-- C10 (witness): two distinct source directories `srv1/world` and
`srv2/world` sharing the basename `world` produce the same output zip path
in the same destination folder at the same instant. -/
theorem C10_basename_only_witness :
    ("srv1/world" : String) ≠ "srv2/world" ∧
    zipOutputPath ⟨2024, 0, 1, 2, 3, 4⟩ "backups" "srv1/world" =
      zipOutputPath ⟨2024, 0, 1, 2, 3, 4⟩ "backups" "srv2/world" :=
  ⟨by decide,
    (C10_basename_only ⟨2024, 0, 1, 2, 3, 4⟩ "backups" "srv1/world" "srv2/world"
      rfl).2⟩

end MCBackup
